import Mathlib

/-!
Verification of `1dSchroedingerHydrogen.py`: a shallow embedding of the
hydrogen radial-wavefunction script (radial evaluator, single-state plotter
pipeline, `__main__` block) over the real numbers, together with theorems
settling the specification's claims.

Modelling conventions:
* Python/numpy floating-point arithmetic is modelled by exact real
  arithmetic (`ℝ`).
* `scipy.special.genlaguerre k α` is the generalized Laguerre polynomial
  `L_k^{(α)}`; for the script's calls `α = 2l+1` is a natural number, so we
  embed it through the standard finite-sum formula
  `L_k^{(α)}(x) = ∑ i ≤ k, (-1)^i ((k+α)! / ((k-i)!(α+i)! i!)) x^i`.
  `genlaguerre` raises `ValueError` for a negative degree, which makes
  `radial_wavefunction` fallible: we embed it with `Except String`.
* numpy arrays are lists of reals; vectorized arithmetic is pointwise `map`
  / `zipWith`.
-/

open Filter

/-- Bohr radius, `a0 = 1` in the script (atomic units). -/
noncomputable def a0 : ℝ := 1

/-- `scipy.special.genlaguerre(k, α)` evaluated at `x`, for natural `α`
(the script only uses `α = 2l+1`): the generalized Laguerre polynomial
`L_k^{(α)}(x) = ∑_{i=0}^{k} (-1)^i · (k+α)! / ((k-i)!·(α+i)!·i!) · x^i`. -/
noncomputable def genlaguerre (k α : ℕ) (x : ℝ) : ℝ :=
  ∑ i ∈ Finset.range (k + 1),
    (-1 : ℝ) ^ i * ((k + α).factorial : ℝ) /
      (((k - i).factorial : ℝ) * ((α + i).factorial : ℝ) * (i.factorial : ℝ)) * x ^ i

/-- The pointwise body of `radial_wavefunction`: for a single radius `r`,
`norm * exp(-rho/2) * rho^l * L_{n-l-1}^{(2l+1)}(rho)` with
`rho = 2r/(n·a0)` and
`norm = sqrt((2/(n·a0))^3 · (n-l-1)! / (2n·(n+l)!))`, exactly as lines
20-33 of the script compute it (numpy broadcasts this over the array). -/
noncomputable def radial_pointwise (n l : ℕ) (r : ℝ) : ℝ :=
  Real.sqrt ((2 / ((n : ℝ) * a0)) ^ 3 * ((n - l - 1).factorial : ℝ) /
      (2 * (n : ℝ) * ((n + l).factorial : ℝ))) *
    Real.exp (-(2 * r / ((n : ℝ) * a0)) / 2) *
    (2 * r / ((n : ℝ) * a0)) ^ l *
    genlaguerre (n - l - 1) (2 * l + 1) (2 * r / ((n : ℝ) * a0))

/-- `radial_wavefunction(n, l, r)` from the script. When the Laguerre degree
`n - l - 1` is negative (i.e. `l ≥ n`), `scipy.special.genlaguerre` raises
`ValueError: n must be a nonnegative integer`, so the call fails instead of
returning an array; we embed that failure as `Except.error`. Otherwise the
result is the pointwise formula mapped over the input array. -/
noncomputable def radial_wavefunction (n l : ℕ) (r : List ℝ) : Except String (List ℝ) :=
  if l < n then
    Except.ok (r.map (radial_pointwise n l))
  else
    Except.error "n must be a nonnegative integer"

/-- `np.linspace(start, stop, num)` (with numpy's default `endpoint=True`):
`num` evenly spaced samples `start + i·(stop-start)/(num-1)`. -/
noncomputable def linspace (start stop : ℝ) (num : ℕ) : List ℝ :=
  (List.range num).map (fun i : ℕ => start + (stop - start) / ((num : ℝ) - 1) * (i : ℝ))

/-- The radial grid built by `plot_single_state` (lines 40-41):
`r = np.linspace(0.01, 30·n², 1000)`. -/
noncomputable def radial_grid (n : ℕ) : List ℝ :=
  linspace 0.01 (30 * (n : ℝ) ^ 2) 1000

/-- The probability density of `plot_single_state` (line 45):
`prob_density = r**2 * R**2`, numpy's elementwise product of same-length
arrays. -/
noncomputable def prob_density (r R : List ℝ) : List ℝ :=
  List.zipWith (fun ri Ri => ri ^ 2 * Ri ^ 2) r R

/-- The energy computed by `plot_single_state` (line 68):
`energy = -13.6 / n**2`. It depends only on `n`; neither `l` nor the radial
grid appears in the expression. -/
noncomputable def energy (n : ℕ) : ℝ := -13.6 / (n : ℝ) ^ 2

/-- The observable behaviour of the `__main__` block (lines 77-80): the
message passed to `print` and the keyword arguments passed to
`plot_single_state`. -/
structure MainTrace where
  printed : String
  plotted_n : ℕ
  plotted_l : ℕ

/-- Lines 79-80 of the script: `print("Plotting n=2, l=0 state...")`
followed by `plot_single_state(n=2, l=1)`. -/
def main_trace : MainTrace :=
  { printed := "Plotting n=2, l=0 state...", plotted_n := 2, plotted_l := 1 }

/-- The state label `print` would have to emit to match the plotted state:
`"Plotting n={n}, l={l} state..."`. -/
def state_label (n l : ℕ) : String :=
  "Plotting n=" ++ toString n ++ ", l=" ++ toString l ++ " state..."

/-- Spec-side radial wavefunction, following §4.1 of the specification
verbatim: `ρ(r) = 2r/(n·a₀)` with `a₀ = 1`,
`norm = sqrt((2/(n·a₀))³·(n−l−1)!/(2n·(n+l)!))`, and
`R(r) = norm · exp(−ρ/2) · ρ^l · L_{n−l−1}^{(2l+1)}(ρ)`. -/
noncomputable def R_spec (n l : ℕ) (r : ℝ) : ℝ :=
  Real.sqrt ((2 / ((n : ℝ) * 1)) ^ 3 * ((n - l - 1).factorial : ℝ) /
      (2 * (n : ℝ) * ((n + l).factorial : ℝ))) *
    Real.exp (-(2 * r / ((n : ℝ) * 1)) / 2) *
    (2 * r / ((n : ℝ) * 1)) ^ l *
    genlaguerre (n - l - 1) (2 * l + 1) (2 * r / ((n : ℝ) * 1))

/-- `L_0^{(α)} = 1`: the degree-zero generalized Laguerre polynomial is the
constant 1. -/
lemma genlaguerre_zero (α : ℕ) (x : ℝ) : genlaguerre 0 α x = 1 := by
  have hα : ((α.factorial : ℝ)) ≠ 0 := Nat.cast_ne_zero.mpr α.factorial_ne_zero
  simp [genlaguerre]
  field_simp

/-- `L_1^{(1)}(x) = 2 - x`. -/
lemma genlaguerre_one_one (x : ℝ) : genlaguerre 1 1 x = 2 - x := by
  simp [genlaguerre, Finset.sum_range_succ, Nat.factorial]
  ring

/-- `√4 = 2`. -/
lemma sqrt_four : Real.sqrt 4 = 2 := by
  rw [show (4 : ℝ) = 2 ^ 2 by norm_num, Real.sqrt_sq (by norm_num : (0:ℝ) ≤ 2)]

/-- `√8 = 2√2`. -/
lemma sqrt_eight : Real.sqrt 8 = 2 * Real.sqrt 2 := by
  rw [show (8 : ℝ) = 2 ^ 2 * 2 by norm_num, Real.sqrt_mul (by positivity),
    Real.sqrt_sq (by norm_num : (0:ℝ) ≤ 2)]

/-- `√24 = 2√6`. -/
lemma sqrt_twentyfour : Real.sqrt 24 = 2 * Real.sqrt 6 := by
  rw [show (24 : ℝ) = 2 ^ 2 * 6 by norm_num, Real.sqrt_mul (by positivity),
    Real.sqrt_sq (by norm_num : (0:ℝ) ≤ 2)]

/-- Evaluating the pointwise radial formula at `n = 1`, `l = 0`:
`R₁₀(r) = 2·exp(−r)`. -/
lemma radial_pointwise_one_zero (r : ℝ) : radial_pointwise 1 0 r = 2 * Real.exp (-r) := by
  have h0 : (1 - 0 - 1 : ℕ) = 0 := rfl
  simp only [radial_pointwise, h0, genlaguerre_zero, a0, Nat.cast_one, mul_one,
    Nat.factorial, pow_zero, Nat.cast_ofNat]
  norm_num
  rw [sqrt_four, show (-(2 * r) / 2 : ℝ) = -r by ring]

/-- Evaluating the pointwise radial formula at `n = 2`, `l = 0`:
`R₂₀(r) = (1/√2)·(1 − r/2)·exp(−r/2)`. -/
lemma radial_pointwise_two_zero (r : ℝ) :
    radial_pointwise 2 0 r = 1 / Real.sqrt 2 * (1 - r / 2) * Real.exp (-r / 2) := by
  have h1 : (2 - 0 - 1 : ℕ) = 1 := rfl
  simp only [radial_pointwise, h1, genlaguerre_one_one, a0, Nat.cast_ofNat, mul_one,
    Nat.factorial, pow_zero]
  norm_num
  rw [sqrt_eight, genlaguerre_one_one]
  have h2 : Real.sqrt 2 ≠ 0 := ne_of_gt (Real.sqrt_pos.mpr (by norm_num))
  field_simp
  ring

/-- Evaluating the pointwise radial formula at `n = 2`, `l = 1`:
`R₂₁(r) = (1/(2√6))·r·exp(−r/2)`. -/
lemma radial_pointwise_two_one (r : ℝ) :
    radial_pointwise 2 1 r = 1 / (2 * Real.sqrt 6) * r * Real.exp (-r / 2) := by
  have h0 : (2 - 1 - 1 : ℕ) = 0 := rfl
  simp only [radial_pointwise, h0, genlaguerre_zero, a0, Nat.cast_ofNat, mul_one,
    Nat.factorial, pow_one]
  norm_num
  rw [sqrt_twentyfour]
  have h6 : Real.sqrt 6 ≠ 0 := ne_of_gt (Real.sqrt_pos.mpr (by norm_num))
  field_simp
  ring

/-- C5: for every `n ≥ 1` the energy computed by the plotter equals
`-13.6/n²` eV exactly (the embedding is exact real arithmetic, and `energy`
takes only `n`, so it is independent of `l` and of the radial grid); in
particular `energy 1 = -13.6`, `energy 2 = -3.4`, `energy 4 = -0.85`. -/
theorem energy_eq_neg_13_6_div_sq :
    (∀ n : ℕ, 1 ≤ n → energy n = -13.6 / (n : ℝ) ^ 2) ∧
    energy 1 = -13.6 ∧ energy 2 = -3.4 ∧ energy 4 = -0.85 := by
  refine ⟨fun n _ => rfl, ?_, ?_, ?_⟩ <;> norm_num [energy]

/-- Witness for C5 at `n = 3`. -/
theorem energy_eq_neg_13_6_div_sq_witness :
    energy 3 = -13.6 / ((3 : ℕ) : ℝ) ^ 2 :=
  energy_eq_neg_13_6_div_sq.1 3 (by decide)

/-- C2: for every `l ≥ n`, `radial_wavefunction` propagates the `ValueError`
that `scipy.special.genlaguerre` raises on the negative degree `n - l - 1`:
the call errors out and never returns a value array. -/
theorem radial_wavefunction_domain_error (n l : ℕ) (r : List ℝ) (h : n ≤ l) :
    radial_wavefunction n l r = Except.error "n must be a nonnegative integer" ∧
    ∀ R : List ℝ, radial_wavefunction n l r ≠ Except.ok R := by
  have hlt : ¬ l < n := not_lt.mpr h
  refine ⟨by simp [radial_wavefunction, hlt], fun R hR => ?_⟩
  simp [radial_wavefunction, hlt] at hR

/-- Witness for C2 at `n = 1`, `l = 1`, `r = [1]`. -/
theorem radial_wavefunction_domain_error_witness :
    radial_wavefunction 1 1 [1] = Except.error "n must be a nonnegative integer" :=
  (radial_wavefunction_domain_error 1 1 [1] (by decide)).1

/-- C8: the embedded pipeline is pure and deterministic — equal inputs give
equal outputs for the evaluator, the grid and the energy, and the constant
`a0` still has its initial value `1` (in the shallow embedding no definition
can mutate its inputs or `a0`; this theorem records the resulting
extensionality). -/
theorem radial_wavefunction_deterministic (n₁ l₁ n₂ l₂ : ℕ) (r₁ r₂ : List ℝ)
    (hn : n₁ = n₂) (hl : l₁ = l₂) (hr : r₁ = r₂) :
    radial_wavefunction n₁ l₁ r₁ = radial_wavefunction n₂ l₂ r₂ ∧
    radial_grid n₁ = radial_grid n₂ ∧
    energy n₁ = energy n₂ ∧
    a0 = 1 := by
  subst hn; subst hl; subst hr
  exact ⟨rfl, rfl, rfl, rfl⟩

/-- Witness for C8 at `n = 2`, `l = 1`, `r = [1, 2]`. -/
theorem radial_wavefunction_deterministic_witness :
    radial_wavefunction 2 1 [1, 2] = radial_wavefunction 2 1 [1, 2] ∧
    radial_grid 2 = radial_grid 2 ∧
    energy 2 = energy 2 ∧
    a0 = 1 :=
  radial_wavefunction_deterministic 2 1 2 1 [1, 2] [1, 2] rfl rfl rfl

/-- C1: for `n ≥ 1`, `0 ≤ l < n` and a list of strictly positive radii, the
evaluator succeeds and returns the same-length list whose value at each point
is the specification's formula `R_spec` (`norm · exp(−ρ/2) · ρ^l ·
L_{n−l−1}^{(2l+1)}(ρ)` with `ρ = 2r/(n·a₀)`, `a₀ = 1`). -/
theorem radial_wavefunction_meets_spec (n l : ℕ) (r : List ℝ)
    (hn : 1 ≤ n) (hl : l < n) (hr : ∀ x ∈ r, 0 < x) :
    radial_wavefunction n l r = Except.ok (r.map (R_spec n l)) ∧
    (r.map (R_spec n l)).length = r.length := by
  have hfun : radial_pointwise n l = R_spec n l := by
    funext x
    simp [radial_pointwise, R_spec, a0]
  exact ⟨by simp [radial_wavefunction, hl, hfun], by simp⟩

/-- Witness for C1 at `n = 1`, `l = 0`, `r = [1]`. -/
theorem radial_wavefunction_meets_spec_witness :
    radial_wavefunction 1 0 [1] = Except.ok ([(1:ℝ)].map (R_spec 1 0)) ∧
    ([(1:ℝ)].map (R_spec 1 0)).length = [(1:ℝ)].length :=
  radial_wavefunction_meets_spec 1 0 [1] (by decide) (by decide)
    (by intro x hx; rw [List.mem_singleton] at hx; rw [hx]; norm_num)

/-- C3: for the ground state `n = 1`, `l = 0` the evaluator's output is
`2·exp(−r)` at every grid point (exactly, in the real-number model), it is
strictly positive for every `r > 0` (in particular for small `r`), it
strictly decreases on `r > 0`, and it tends to `0` as `r → ∞`. -/
theorem ground_state_formula :
    (∀ rs : List ℝ,
      radial_wavefunction 1 0 rs = Except.ok (rs.map (fun r => 2 * Real.exp (-r)))) ∧
    (∀ r : ℝ, 0 < r → 0 < radial_pointwise 1 0 r) ∧
    (∀ r₁ r₂ : ℝ, 0 < r₁ → r₁ < r₂ → radial_pointwise 1 0 r₂ < radial_pointwise 1 0 r₁) ∧
    Tendsto (fun r => radial_pointwise 1 0 r) atTop (nhds 0) := by
  refine ⟨fun rs => ?_, fun r _ => ?_, fun r₁ r₂ _ h12 => ?_, ?_⟩
  · simp [radial_wavefunction, radial_pointwise_one_zero]
  · rw [radial_pointwise_one_zero]
    positivity
  · rw [radial_pointwise_one_zero, radial_pointwise_one_zero]
    have := Real.exp_lt_exp.mpr (neg_lt_neg h12)
    linarith
  · have h : Tendsto (fun r : ℝ => 2 * Real.exp (-r)) atTop (nhds 0) := by
      simpa using Real.tendsto_exp_neg_atTop_nhds_zero.const_mul (2 : ℝ)
    exact h.congr fun r => (radial_pointwise_one_zero r).symm

/-- Witness for C3: positivity of the ground state at `r = 1`. -/
theorem ground_state_formula_witness : 0 < radial_pointwise 1 0 1 :=
  ground_state_formula.2.1 1 one_pos

/-- C4: for the `n = 2` states the evaluator matches the textbook closed
forms exactly in the real-number model: `R₂₀(r) = (1/√2)(1 − r/2)e^{−r/2}`
(with its node exactly at `r = 2`), and `R₂₁(r) = (1/(2√6))·r·e^{−r/2}`,
which is strictly positive for every `r > 0`. -/
theorem n_two_states_closed_forms :
    (∀ r : ℝ, 0 < r →
      radial_pointwise 2 0 r = 1 / Real.sqrt 2 * (1 - r / 2) * Real.exp (-r / 2)) ∧
    radial_pointwise 2 0 2 = 0 ∧
    (∀ r : ℝ, 0 < r →
      radial_pointwise 2 1 r = 1 / (2 * Real.sqrt 6) * r * Real.exp (-r / 2)) ∧
    (∀ r : ℝ, 0 < r → 0 < radial_pointwise 2 1 r) := by
  refine ⟨fun r _ => radial_pointwise_two_zero r, ?_, fun r _ => radial_pointwise_two_one r,
    fun r hr => ?_⟩
  · rw [radial_pointwise_two_zero]
    norm_num
  · rw [radial_pointwise_two_one]
    have h6 : (0:ℝ) < Real.sqrt 6 := Real.sqrt_pos.mpr (by norm_num)
    positivity

/-- Witness for C4: the `(2,0)` closed form evaluated at `r = 4`. -/
theorem n_two_states_closed_forms_witness :
    radial_pointwise 2 0 4 = 1 / Real.sqrt 2 * (1 - 4 / 2) * Real.exp (-4 / 2) :=
  n_two_states_closed_forms.1 4 (by norm_num)

/-- C10: for every `n ≥ 1` the state with maximal angular momentum
`l = n − 1` has Laguerre degree `n − l − 1 = 0`, so the Laguerre factor is
the constant `1` and the wavefunction is strictly positive for every
`r > 0` (no radial nodes). -/
theorem max_angular_momentum_positive (n : ℕ) (r : ℝ) (hn : 1 ≤ n) (hr : 0 < r) :
    0 < radial_pointwise n (n - 1) r := by
  obtain ⟨m, rfl⟩ : ∃ m, n = m + 1 := ⟨n - 1, by omega⟩
  have hd : m + 1 - (m + 1 - 1) - 1 = 0 := by omega
  have hl : m + 1 - 1 = m := by omega
  have hnR : (0:ℝ) < ((m + 1 : ℕ) : ℝ) := by positivity
  have hfac : (0:ℝ) < (((m + 1 + m).factorial : ℕ) : ℝ) := by
    exact_mod_cast Nat.factorial_pos _
  unfold radial_pointwise
  rw [hd, hl, genlaguerre_zero, mul_one, a0, mul_one]
  have harg : (0:ℝ) < (2 / ((m + 1 : ℕ) : ℝ)) ^ 3 * ((Nat.factorial 0 : ℕ) : ℝ) /
      (2 * ((m + 1 : ℕ) : ℝ) * (((m + 1 + m).factorial : ℕ) : ℝ)) := by
    have h1 : (0:ℝ) < (2 / ((m + 1 : ℕ) : ℝ)) ^ 3 := by positivity
    have h2 : (0:ℝ) < 2 * ((m + 1 : ℕ) : ℝ) * (((m + 1 + m).factorial : ℕ) : ℝ) := by
      positivity
    simp only [Nat.factorial, Nat.cast_one, mul_one]
    exact div_pos h1 h2
  have hρ : (0:ℝ) < 2 * r / ((m + 1 : ℕ) : ℝ) := by positivity
  exact mul_pos (mul_pos (Real.sqrt_pos.mpr harg) (Real.exp_pos _)) (pow_pos hρ m)

/-- Witness for C10 at `n = 3`, `r = 1`. -/
theorem max_angular_momentum_positive_witness : 0 < radial_pointwise 3 (3 - 1) 1 :=
  max_angular_momentum_positive 3 1 (by decide) one_pos

/-- The radial grid has 1000 points. -/
lemma radial_grid_length (n : ℕ) : (radial_grid n).length = 1000 := by
  rw [radial_grid, linspace, List.length_map, List.length_range]

/-- Closed form for the `i`-th point of the radial grid:
`0.01 + (30n² − 0.01)/999 · i`. -/
lemma radial_grid_get (n i : ℕ) (h : i < (radial_grid n).length) :
    (radial_grid n).get ⟨i, h⟩ = 0.01 + (30 * (n : ℝ) ^ 2 - 0.01) / 999 * (i : ℝ) := by
  simp only [radial_grid, linspace, List.get_eq_getElem, List.getElem_map,
    List.getElem_range]
  norm_num

/-- For `n ≥ 1` the grid spacing `(30n² − 0.01)/999` is strictly positive. -/
lemma radial_grid_step_pos (n : ℕ) (hn : 1 ≤ n) :
    (0:ℝ) < (30 * (n : ℝ) ^ 2 - 0.01) / 999 := by
  have h1 : (1:ℝ) ≤ (n : ℝ) := by exact_mod_cast hn
  have h2 : (1:ℝ) ≤ (n : ℝ) ^ 2 := by nlinarith
  have : (0:ℝ) < 30 * (n : ℝ) ^ 2 - 0.01 := by nlinarith
  positivity

/-- C6: for every `n ≥ 1` the plotter's radial grid has exactly 1000 points,
is strictly increasing, evenly spaced with spacing `(30n² − 0.01)/999`, its
first value is `0.01` and its last value (index 999) is `30·n²`. -/
theorem radial_grid_properties (n : ℕ) (hn : 1 ≤ n) :
    (radial_grid n).length = 1000 ∧
    (∀ i j : Fin (radial_grid n).length,
      (i : ℕ) < (j : ℕ) → (radial_grid n).get i < (radial_grid n).get j) ∧
    (∀ i j : Fin (radial_grid n).length, (i : ℕ) + 1 = (j : ℕ) →
      (radial_grid n).get j - (radial_grid n).get i = (30 * (n : ℝ) ^ 2 - 0.01) / 999) ∧
    (∀ h0 : 0 < (radial_grid n).length, (radial_grid n).get ⟨0, h0⟩ = 0.01) ∧
    (∀ h9 : 999 < (radial_grid n).length,
      (radial_grid n).get ⟨999, h9⟩ = 30 * (n : ℝ) ^ 2) := by
  have hstep := radial_grid_step_pos n hn
  refine ⟨radial_grid_length n, fun i j hij => ?_, fun i j hij => ?_, fun h0 => ?_, fun h9 => ?_⟩
  · rw [radial_grid_get n i i.isLt, radial_grid_get n j j.isLt]
    have hij' : ((i : ℕ) : ℝ) < ((j : ℕ) : ℝ) := by exact_mod_cast hij
    have := mul_lt_mul_of_pos_left hij' hstep
    linarith
  · rw [radial_grid_get n i i.isLt, radial_grid_get n j j.isLt, ← hij]
    push_cast
    ring
  · rw [radial_grid_get n 0 h0]
    norm_num
  · rw [radial_grid_get n 999 h9]
    rw [show ((999 : ℕ) : ℝ) = 999 by norm_num,
      div_mul_cancel₀ _ (by norm_num : (999:ℝ) ≠ 0)]
    ring

/-- Witness for C6 at `n = 2`: length and first point. -/
theorem radial_grid_properties_witness :
    (radial_grid 2).length = 1000 ∧
    (radial_grid 2).get ⟨0, by rw [radial_grid_length]; omega⟩ = 0.01 :=
  ⟨(radial_grid_properties 2 (by decide)).1,
   (radial_grid_properties 2 (by decide)).2.2.2.1 (by rw [radial_grid_length]; omega)⟩

/-- C7: whenever the evaluator returns an array `R` for the grid `r`, the
plotter's probability density is the pointwise transform `r²·R(r)²` and has
the same length as the grid. -/
theorem prob_density_pointwise (n l : ℕ) (r R : List ℝ)
    (h : radial_wavefunction n l r = Except.ok R) :
    (prob_density r R).length = r.length ∧
    ∀ (i : ℕ) (hi : i < r.length) (hiR : i < R.length)
      (hip : i < (prob_density r R).length),
      (prob_density r R).get ⟨i, hip⟩ = (r.get ⟨i, hi⟩) ^ 2 * (R.get ⟨i, hiR⟩) ^ 2 := by
  by_cases hln : l < n
  · simp only [radial_wavefunction, if_pos hln, Except.ok.injEq] at h
    subst h
    refine ⟨by simp [prob_density], fun i hi hiR hip => ?_⟩
    simp [prob_density, List.get_eq_getElem]
  · simp [radial_wavefunction, if_neg hln] at h

/-- Witness for C7 at `n = 1`, `l = 0`, `r = [1]`. -/
theorem prob_density_pointwise_witness :
    (prob_density [(1:ℝ)] [radial_pointwise 1 0 1]).length = [(1:ℝ)].length ∧
    (prob_density [(1:ℝ)] [radial_pointwise 1 0 1]).get ⟨0, by simp [prob_density]⟩ =
      ((1:ℝ)) ^ 2 * (radial_pointwise 1 0 1) ^ 2 :=
  ⟨(prob_density_pointwise 1 0 [1] [radial_pointwise 1 0 1] rfl).1,
   (prob_density_pointwise 1 0 [1] [radial_pointwise 1 0 1] rfl).2 0 (by simp) (by simp)
     (by simp [prob_density])⟩

/-- C9: the `__main__` block prints `"Plotting n=2, l=0 state..."` but calls
`plot_single_state(n=2, l=1)`, so the printed label does not match the state
actually plotted (the label for the plotted state would say `l=1`). -/
theorem main_trace_label_mismatch :
    main_trace.printed = "Plotting n=2, l=0 state..." ∧
    main_trace.plotted_n = 2 ∧ main_trace.plotted_l = 1 ∧
    main_trace.printed ≠ state_label main_trace.plotted_n main_trace.plotted_l ∧
    main_trace.printed = state_label 2 0 := by
  refine ⟨rfl, rfl, rfl, ?_, rfl⟩
  decide
